import Mathlib

/-!
Verification of the ARX-teleop leader/follower teleoperation engine.

The Python sources are embedded shallowly: machine integers are `Int`/`Nat`,
Python float arithmetic on positions and timestamps is modelled exactly over
`Rat`, Python dictionaries are association lists with replace-on-update
semantics, and the Python built-in `int()` (truncation toward zero) is the
function `pyint` below.  Each definition mirrors one function of the
repository; the theorems at the end of the file settle the specification
claims.
-/

namespace ARXTeleop

/-- Python `int(q)`: truncation toward zero. -/
def pyint (q : ℚ) : ℤ := if q < 0 then ⌈q⌉ else ⌊q⌋

theorem pyint_intCast (n : ℤ) : pyint (n : ℚ) = n := by
  unfold pyint
  split <;> simp

theorem pyint_le_of_le {q : ℚ} {t : ℤ} (h : q ≤ (t : ℚ)) : pyint q ≤ t := by
  unfold pyint
  split
  · exact Int.ceil_le.mpr h
  · calc ⌊q⌋ ≤ ⌊(t : ℚ)⌋ := Int.floor_le_floor h
    _ = t := Int.floor_intCast t

theorem le_pyint_of_le {c : ℤ} {q : ℚ} (h : (c : ℚ) ≤ q) : c ≤ pyint q := by
  unfold pyint
  split
  · exact_mod_cast h.trans (Int.le_ceil q)
  · exact Int.le_floor.mpr h

/-- Association-list lookup, mirroring Python `d.get(k)` / `d[k]`. -/
def alookup {α β : Type} [DecidableEq α] (k : α) : List (α × β) → Option β
  | [] => none
  | (a, b) :: l => if a = k then some b else alookup k l

/-- Association-list update, mirroring Python `d[k] = v` (replace or append). -/
def aupdate {α β : Type} [DecidableEq α] (k : α) (v : β) : List (α × β) → List (α × β)
  | [] => [(k, v)]
  | (a, b) :: l => if a = k then (k, v) :: l else (a, b) :: aupdate k v l

/-- Association-list deletion, mirroring Python `del d[k]`. -/
def aerase {α β : Type} [DecidableEq α] (k : α) : List (α × β) → List (α × β)
  | [] => []
  | (a, b) :: l => if a = k then aerase k l else (a, b) :: aerase k l

/-- Appending to a latency window capped at 100 samples:
`l.append(x); if len(l) > 100: l.pop(0)`. -/
def pushLatency (l : List ℚ) (x : ℚ) : List ℚ :=
  let l2 := l ++ [x]
  if l2.length > 100 then l2.drop 1 else l2

/-- Python `max` over a nonempty list (the sources only call it when nonempty). -/
def listMax : List ℚ → ℚ
  | [] => 0
  | x :: xs => xs.foldl max x

namespace PubnubConfig

/-- `pubnub_config.MAX_LATENCY_MS = 200`. -/
def MAX_LATENCY_MS : ℚ := 200

/-- `pubnub_config.MAX_POSITION_CHANGE = 200`. -/
def MAX_POSITION_CHANGE : ℤ := 200

/-- `pubnub_config.POSITION_SMOOTHING = 0.8`. -/
def POSITION_SMOOTHING : ℚ := 8 / 10

end PubnubConfig

namespace FollowerRemote

open PubnubConfig

/-- State of `teleoperate_follower_remote.PositionSmoother`:
the smoothing factor and the per-motor `current_positions` dict. -/
structure PositionSmoother where
  smoothing_factor : ℚ
  current_positions : List (ℕ × ℤ)
  deriving DecidableEq

/-- `PositionSmoother(smoothing_factor)`. -/
def PositionSmoother.init (f : ℚ) : PositionSmoother := ⟨f, []⟩

/-- `int(current * f + target * (1 - f))` — the raw exponential-smoothing value. -/
def smoothRaw (f : ℚ) (current target : ℤ) : ℤ :=
  pyint ((current : ℚ) * f + (target : ℚ) * (1 - f))

/-- The maximum-change limiter inside `PositionSmoother.smooth`:
if `|smoothed - current| > MAX_POSITION_CHANGE`, move by exactly
`MAX_POSITION_CHANGE` in the direction of motion. -/
def clampStep (current smoothed : ℤ) : ℤ :=
  if |smoothed - current| > MAX_POSITION_CHANGE then
    current + (if smoothed > current then 1 else -1) * MAX_POSITION_CHANGE
  else smoothed

/-- `PositionSmoother.smooth(motor_id, target_position)`: returns the updated
smoother state and the position actually commanded. -/
def PositionSmoother.smooth (s : PositionSmoother) (motor_id : ℕ) (target : ℤ) :
    PositionSmoother × ℤ :=
  match alookup motor_id s.current_positions with
  | none => (⟨s.smoothing_factor, aupdate motor_id target s.current_positions⟩, target)
  | some current =>
    let sm := clampStep current (smoothRaw s.smoothing_factor current target)
    (⟨s.smoothing_factor, aupdate motor_id sm s.current_positions⟩, sm)

/-- One smoothing step on a single channel value (state already looked up). -/
def smoothStep (f : ℚ) (current target : ℤ) : ℤ :=
  clampStep current (smoothRaw f current target)

/-- The sequence of `current` values obtained by repeatedly feeding the same
target to one channel of the smoother. -/
def iterSmooth (f : ℚ) (target c0 : ℤ) : ℕ → ℤ
  | 0 => c0
  | n + 1 => smoothStep f (iterSmooth f target c0 n) target

theorem clampStep_btw_of_le {c s : ℤ} (h : c ≤ s) :
    c ≤ clampStep c s ∧ clampStep c s ≤ s := by
  unfold clampStep MAX_POSITION_CHANGE
  rw [abs_of_nonneg (sub_nonneg.mpr h)]
  split_ifs <;> omega

theorem clampStep_btw_of_ge {c s : ℤ} (h : s ≤ c) :
    s ≤ clampStep c s ∧ clampStep c s ≤ c := by
  unfold clampStep MAX_POSITION_CHANGE
  rw [abs_of_nonpos (sub_nonpos.mpr h)]
  split_ifs <;> omega

theorem abs_clampStep_sub_le (c s : ℤ) :
    |clampStep c s - c| ≤ MAX_POSITION_CHANGE := by
  unfold clampStep MAX_POSITION_CHANGE
  split_ifs with h1 h2
  · rw [abs_le]; omega
  · rw [abs_le]; omega
  · rw [not_lt, abs_le] at h1
    rw [abs_le]
    exact ⟨by omega, by omega⟩

theorem smoothRaw_btw_of_le {f : ℚ} (hf0 : 0 ≤ f) (hf1 : f ≤ 1) {c t : ℤ}
    (h : c ≤ t) : c ≤ smoothRaw f c t ∧ smoothRaw f c t ≤ t := by
  have hct : (c : ℚ) ≤ (t : ℚ) := by exact_mod_cast h
  have h1 : (c : ℚ) ≤ (c : ℚ) * f + (t : ℚ) * (1 - f) := by nlinarith
  have h2 : (c : ℚ) * f + (t : ℚ) * (1 - f) ≤ (t : ℚ) := by nlinarith
  exact ⟨le_pyint_of_le h1, pyint_le_of_le h2⟩

theorem smoothRaw_btw_of_ge {f : ℚ} (hf0 : 0 ≤ f) (hf1 : f ≤ 1) {c t : ℤ}
    (h : t ≤ c) : t ≤ smoothRaw f c t ∧ smoothRaw f c t ≤ c := by
  have hct : (t : ℚ) ≤ (c : ℚ) := by exact_mod_cast h
  have h1 : (t : ℚ) ≤ (c : ℚ) * f + (t : ℚ) * (1 - f) := by nlinarith
  have h2 : (c : ℚ) * f + (t : ℚ) * (1 - f) ≤ (c : ℚ) := by nlinarith
  exact ⟨le_pyint_of_le h1, pyint_le_of_le h2⟩

theorem smoothStep_btw_of_le {f : ℚ} (hf0 : 0 ≤ f) (hf1 : f ≤ 1) {c t : ℤ}
    (h : c ≤ t) : c ≤ smoothStep f c t ∧ smoothStep f c t ≤ t := by
  obtain ⟨h1, h2⟩ := smoothRaw_btw_of_le hf0 hf1 h
  obtain ⟨h3, h4⟩ := clampStep_btw_of_le h1
  exact ⟨h3, h4.trans h2⟩

theorem smoothStep_btw_of_ge {f : ℚ} (hf0 : 0 ≤ f) (hf1 : f ≤ 1) {c t : ℤ}
    (h : t ≤ c) : t ≤ smoothStep f c t ∧ smoothStep f c t ≤ c := by
  obtain ⟨h1, h2⟩ := smoothRaw_btw_of_ge hf0 hf1 h
  obtain ⟨h3, h4⟩ := clampStep_btw_of_ge h2
  exact ⟨h1.trans h3, h4⟩

theorem iterSmooth_le_target {f : ℚ} (hf0 : 0 ≤ f) (hf1 : f ≤ 1) {t c0 : ℤ}
    (h : c0 ≤ t) : ∀ n, iterSmooth f t c0 n ≤ t := by
  intro n
  induction n with
  | zero => exact h
  | succ n ih => exact (smoothStep_btw_of_le hf0 hf1 ih).2

theorem iterSmooth_ge_target {f : ℚ} (hf0 : 0 ≤ f) (hf1 : f ≤ 1) {t c0 : ℤ}
    (h : t ≤ c0) : ∀ n, t ≤ iterSmooth f t c0 n := by
  intro n
  induction n with
  | zero => exact h
  | succ n ih => exact (smoothStep_btw_of_ge hf0 hf1 ih).1

/-- A telemetry message as consumed by `FollowerTeleop.apply_positions`:
`timestamp`, `sequence` and the per-leader position dict. -/
structure TelemetryFrame where
  timestamp : ℚ
  sequence : ℕ
  positions : List (String × List (ℕ × ℤ))
  deriving DecidableEq

/-- The part of `FollowerTeleop` state that `apply_positions` reads and writes:
the leader-to-follower `mapping`, the robot ids of the connected `followers`,
the per-follower `smoothers` dict and the rolling latency window. -/
structure FollowerTeleopState where
  mapping : List (String × String)
  followers : List String
  smoothers : List (String × PositionSmoother)
  latencies : List ℚ
  deriving DecidableEq

/-- Smoothing of one leader position dict through a follower smoother,
mirroring the inner `for motor_id_str, position in leader_positions.items()`
loop: returns the updated smoother and the `smoothed_positions` dict handed
to `follower.write_positions`. -/
def smoothAll (s : PositionSmoother) : List (ℕ × ℤ) → PositionSmoother × List (ℕ × ℤ)
  | [] => (s, [])
  | (m, p) :: rest =>
    let r := s.smooth m p
    let rr := smoothAll r.1 rest
    (rr.1, (m, r.2) :: rr.2)

/-- The `for leader_id, leader_positions in positions_data.items()` loop of
`apply_positions`: an unmapped leader or an unconnected follower is skipped;
otherwise the positions are smoothed through the smoother of the mapped
follower and written to it.  In the program `self.smoothers` holds an entry
for every connected follower (created at connect time), so the lookup of the
smoother never fails on reachable states; a missing smoother is skipped here
to keep the function total.  Returns the final state and, per applied leader
entry, the `(follower_id, smoothed_positions)` hardware write. -/
def applyEntries (st : FollowerTeleopState) :
    List (String × List (ℕ × ℤ)) → FollowerTeleopState × List (String × List (ℕ × ℤ))
  | [] => (st, [])
  | (leader_id, lp) :: rest =>
    match alookup leader_id st.mapping with
    | none => applyEntries st rest
    | some follower_id =>
      if follower_id ∈ st.followers then
        match alookup follower_id st.smoothers with
        | none => applyEntries st rest
        | some sm =>
          let r := smoothAll sm lp
          let st2 := {st with smoothers := aupdate follower_id r.1 st.smoothers}
          let rr := applyEntries st2 rest
          (rr.1, (follower_id, r.2) :: rr.2)
      else applyEntries st rest

/-- The body of `apply_positions` after the staleness gate has passed. -/
def process_frame (st : FollowerTeleopState) (frame : TelemetryFrame) :
    FollowerTeleopState × List (String × List (ℕ × ℤ)) :=
  applyEntries st frame.positions

/-- `FollowerTeleop.apply_positions(telemetry_data)` at wall-clock time `now`:
computes `latency = (now - timestamp) * 1000`, records it in the rolling
window, rejects the frame when `latency > MAX_LATENCY_MS`, and otherwise
applies the positions through the smoothers.  Returns the new state and the
list of hardware writes performed. -/
def apply_positions (now : ℚ) (st : FollowerTeleopState) (frame : TelemetryFrame) :
    FollowerTeleopState × List (String × List (ℕ × ℤ)) :=
  let latency := (now - frame.timestamp) * 1000
  let st1 := {st with latencies := pushLatency st.latencies latency}
  if latency > PubnubConfig.MAX_LATENCY_MS then (st1, [])
  else process_frame st1 frame

end FollowerRemote

namespace MultiArms

/-- `teleoperate_multi_arms_standalone.switch_mapping(current_mapping)`:
builds `{leader_ids[0]: follower_ids[1], leader_ids[1]: follower_ids[0]}`.
The Python indexing raises on a mapping with fewer than two entries, which
is modelled as `none`. -/
def switch_mapping : List (String × String) → Option (List (String × String))
  | (l1, f1) :: (l2, f2) :: _ => some [(l1, f2), (l2, f1)]
  | _ => none

/-- `identify_robot_by_voltage`: a robot is a leader iff its bus voltage is
below 9.0 V (`is_leader = voltage < 9.0`). -/
def identify_robot_by_voltage_is_leader (voltage : ℚ) : Bool :=
  decide (voltage < 9)

/-- `SO101Controller.resolution = 4096` (STS3215, valid positions 0..4095). -/
def resolution : ℕ := 4096

/-- `SO101Controller.write_positions(positions)`: each goal position is
clamped into `[0, resolution - 1]` before being written to the
`Goal_Position` register; the returned list is the sequence of
`(motor_id, value)` register writes performed. -/
def write_positions (positions : List (ℕ × ℤ)) : List (ℕ × ℤ) :=
  positions.map (fun p => (p.1, max 0 (min ((resolution : ℤ) - 1) p.2)))

end MultiArms

namespace LeaderRemote

/-- `LeaderTeleop.switch_mapping`: guarded by exactly two connected leaders
and a two-entry mapping, it replaces the mapping by
`{"Leader1": values[1], "Leader2": values[0]}`; otherwise the mapping is
left unchanged. -/
def switch_mapping (numLeaders : ℕ) (mapping : List (String × String)) :
    List (String × String) :=
  if numLeaders ≠ 2 then mapping
  else if mapping.length ≠ 2 then mapping
  else
    match mapping with
    | (_, f1) :: (_, f2) :: _ => [("Leader1", f2), ("Leader2", f1)]
    | _ => mapping

end LeaderRemote

/-- State of the `NetworkMonitor` class, which appears verbatim in both
`teleoperate_leader_remote.py` and `teleop_single_arx_leader.py`:
counters, the outstanding `last_sent_time` dict and the rolling latency
window (`max_latency_samples = 100`). -/
structure NetworkMonitor where
  sent_count : ℕ
  ack_count : ℕ
  last_sent_time : List (ℕ × ℚ)
  latencies : List ℚ
  deriving DecidableEq

namespace NetworkMonitor

/-- `NetworkMonitor.__init__`. -/
def init : NetworkMonitor := ⟨0, 0, [], []⟩

/-- `NetworkMonitor.message_sent(sequence)` at wall-clock time `now`. -/
def message_sent (nm : NetworkMonitor) (sequence : ℕ) (now : ℚ) : NetworkMonitor :=
  { nm with
    sent_count := nm.sent_count + 1
    last_sent_time := aupdate sequence now nm.last_sent_time }

/-- `NetworkMonitor.message_acknowledged(sequence, timestamp)` at wall-clock
time `now`: if the sequence is outstanding, record the latency, bump
`ack_count`, delete the entry and return the latency; otherwise return
`None` with the state untouched. -/
def message_acknowledged (nm : NetworkMonitor) (sequence : ℕ) (now : ℚ) :
    NetworkMonitor × Option ℚ :=
  match alookup sequence nm.last_sent_time with
  | some t0 =>
    let latency := (now - t0) * 1000
    ({ nm with
        latencies := pushLatency nm.latencies latency
        ack_count := nm.ack_count + 1
        last_sent_time := aerase sequence nm.last_sent_time }, some latency)
  | none => (nm, none)

/-- The statistics dict returned by `NetworkMonitor.get_stats`. -/
structure Stats where
  avg_latency : ℚ
  max_latency : ℚ
  packet_loss : ℚ
  sent : ℕ
  acked : ℕ
  deriving DecidableEq

/-- `get_stats` of `teleoperate_leader_remote.NetworkMonitor`:
`packet_loss = 1 - ack_count / sent_count` (0 before any send, and an
all-zero report while no latency sample exists). -/
def get_stats_remote (nm : NetworkMonitor) : Stats :=
  if nm.latencies = [] then
    ⟨0, 0, 0, nm.sent_count, nm.ack_count⟩
  else
    ⟨nm.latencies.sum / nm.latencies.length, listMax nm.latencies,
      if nm.sent_count > 0 then 1 - (nm.ack_count : ℚ) / (nm.sent_count : ℚ) else 0,
      nm.sent_count, nm.ack_count⟩

/-- `get_stats` of `teleop_single_arx_leader.NetworkMonitor`:
`expected_acks = sent_count // 5` (only every 5th packet expects an ack) and
`packet_loss = 1 - ack_count / expected_acks` (0 when `expected_acks = 0`,
and an all-zero report while no latency sample exists). -/
def get_stats_arx (nm : NetworkMonitor) : Stats :=
  if nm.latencies = [] then
    ⟨0, 0, 0, nm.sent_count, nm.ack_count⟩
  else
    let expected_acks := nm.sent_count / 5
    ⟨nm.latencies.sum / nm.latencies.length, listMax nm.latencies,
      if expected_acks > 0 then 1 - (nm.ack_count : ℚ) / (expected_acks : ℚ) else 0,
      nm.sent_count, nm.ack_count⟩

/-- An event in the life of a `NetworkMonitor`. -/
inductive Op where
  | sent (sequence : ℕ) (now : ℚ)
  | ack (sequence : ℕ) (now : ℚ)
  deriving DecidableEq

/-- Apply one event. -/
def stepOp (nm : NetworkMonitor) : Op → NetworkMonitor
  | .sent sequence now => nm.message_sent sequence now
  | .ack sequence now => (nm.message_acknowledged sequence now).1

/-- Run a sequence of events from a fresh monitor. -/
def run (ops : List Op) : NetworkMonitor :=
  ops.foldl stepOp init

end NetworkMonitor

namespace SetMiddle

/-- The sign-magnitude encoding performed inside
`FeetechController.write_homing_offsets`:
`encoded = abs(offset) | (1 << 11)` when the offset is negative, the offset
itself otherwise.  The code performs no range check of any kind before the
register write. -/
def encode_homing_offset (offset : ℤ) : ℤ :=
  if offset < 0 then ((offset.natAbs ||| (1 <<< 11) : ℕ) : ℤ) else offset

/-- Modelled from the spec: sign-magnitude decoding with sign bit `b = 11`
("Decoding reverses this exactly"): the direction bit is bit 11 and the
remaining bits are the magnitude, negated when the direction bit is set.
The repository never reads the register back, so this function has no
source counterpart. -/
def decode_sign_magnitude (e : ℕ) : ℤ :=
  if e.testBit 11 then -(((e ^^^ (1 <<< 11) : ℕ)) : ℤ) else (e : ℤ)

/-- `set_middle_position`: a robot is a leader iff `4.5 <= voltage <= 5.5`
(`is_leader = 4.5 <= voltage <= 5.5`, the band policy). -/
def set_middle_is_leader (voltage : ℚ) : Bool :=
  decide (9 / 2 ≤ voltage ∧ voltage ≤ 11 / 2)

/-- `FeetechController.resolution = 4096`. -/
def resolution : ℕ := 4096

/-- `FeetechController.calculate_homing_offsets(positions)`:
`offset = position - int(resolution / 2) = position - 2048` per motor. -/
def calculate_homing_offsets (positions : List (ℕ × ℤ)) : List (ℕ × ℤ) :=
  positions.map (fun p => (p.1, p.2 - (resolution : ℤ) / 2))

/-- Feetech register semantics quoted in the code
("Present_Position = Actual_Position - Homing_Offset"). -/
def present_position (actual homing : ℤ) : ℤ := actual - homing

/-- The offset `set_middle_position` actually computes for a motor whose
true (actual) position is `actual` while a pre-existing homing offset
`h_old` is still active: the raw positions are read *before*
`reset_calibration`, so the reading is `actual - h_old`. -/
def code_new_offset (actual h_old : ℤ) : ℤ :=
  present_position actual h_old - (resolution : ℤ) / 2

/-- The offset the claimed protocol computes: the raw positions are read
only after the homing offset has been reset to 0. -/
def claimed_new_offset (actual : ℤ) : ℤ :=
  present_position actual 0 - (resolution : ℤ) / 2

/-- Observable hardware actions of the calibration scripts, in order. -/
inductive CalEvent where
  | readVoltage
  | disableTorque
  | setPhase (v : ℤ)
  | setOperatingMode
  | readPositions
  | resetHomingOffset (motor : ℕ)
  | resetMinLimit (motor : ℕ)
  | resetMaxLimit (motor : ℕ)
  | computeOffsets
  | writeHomingOffset (motor : ℕ)
  deriving DecidableEq, BEq

/-- Event trace of `FeetechController.reset_calibration`: per motor, reset
the homing offset to 0, then the position limits to `[0, resolution - 1]`. -/
def reset_calibration_trace (motors : List ℕ) : List CalEvent :=
  motors.flatMap fun m => [.resetHomingOffset m, .resetMinLimit m, .resetMaxLimit m]

/-- Event trace of `FeetechController.write_homing_offsets`. -/
def write_homing_offsets_trace (motors : List ℕ) : List CalEvent :=
  motors.map .writeHomingOffset

/-- Event trace of `set_middle_position(controller)`: voltage detection,
torque disable, phase and operating-mode setup, then — after the operator
presses ENTER — `read_positions`, `reset_calibration`,
`calculate_homing_offsets`, a second torque disable and finally
`write_homing_offsets`. -/
def set_middle_position_trace (motors : List ℕ) (phase : ℤ) : List CalEvent :=
  [.readVoltage, .disableTorque, .setPhase phase, .setOperatingMode, .readPositions] ++
    reset_calibration_trace motors ++
    [.computeOffsets, .disableTorque] ++
    write_homing_offsets_trace motors

end SetMiddle

namespace ArxFollower

/-- `ARXArmWrapper.write_joint_tics`, one arm joint: tic to radians with
the per-motor calibrated center, `rad = (tic - center) * scale`, or
`rad = (center - tic) * scale` for a motor listed in `invert_motors`.
`scale` stands for `servo_to_radian_scale = 2 * pi / 4095`. -/
def tic_to_radians (scale : ℚ) (center : ℤ) (inverted : Bool) (tic : ℤ) : ℚ :=
  if inverted then ((center : ℚ) - (tic : ℚ)) * scale
  else ((tic : ℚ) - (center : ℚ)) * scale

/-- `ARXArmWrapper.read_joint_tics`, one arm joint: radians back to a tic,
`tic = int(rad / scale + center)`, or `tic = int(center - rad / scale)` for
an inverted motor. -/
def radians_to_tic (scale : ℚ) (center : ℤ) (inverted : Bool) (rad : ℚ) : ℤ :=
  if inverted then pyint ((center : ℚ) - rad / scale)
  else pyint (rad / scale + (center : ℚ))

end ArxFollower

/-! ## Claims -/

open FollowerRemote NetworkMonitor

/-- C1: a telemetry frame whose age `latency_ms = (now - frame.timestamp) * 1000`
exceeds `MAX_LATENCY_MS = 200` is dropped entirely — no goal-position write
reaches any follower and the smoother state is untouched (no partial apply) —
while a frame within the limit is applied through the smoothing-and-write
path. -/
theorem apply_positions_staleness_gate (now : ℚ) (st : FollowerTeleopState)
    (frame : TelemetryFrame) :
    ((now - frame.timestamp) * 1000 > PubnubConfig.MAX_LATENCY_MS →
      (apply_positions now st frame).2 = [] ∧
      (apply_positions now st frame).1.smoothers = st.smoothers) ∧
    ((now - frame.timestamp) * 1000 ≤ PubnubConfig.MAX_LATENCY_MS →
      apply_positions now st frame =
        process_frame
          { st with latencies := pushLatency st.latencies ((now - frame.timestamp) * 1000) }
          frame) := by
  constructor
  · intro h
    simp only [apply_positions]
    rw [if_pos h]
    exact ⟨rfl, rfl⟩
  · intro h
    simp only [apply_positions]
    rw [if_neg (not_lt.mpr h)]

/-- C1 witness: a frame 50 ms old passes the gate and produces a hardware
write, and a frame 405 ms old is dropped with no write. -/
theorem apply_positions_staleness_gate_witness :
    ((1 : ℚ) - 19 / 20) * 1000 ≤ PubnubConfig.MAX_LATENCY_MS ∧
    (apply_positions 1
        ⟨[("Leader1", "Follower1")], ["Follower1"],
          [("Follower1", PositionSmoother.init (8 / 10))], []⟩
        ⟨19 / 20, 1, [("Leader1", [(1, 2048)])]⟩).2 = [("Follower1", [(1, 2048)])] ∧
    ((2 : ℚ) - 319 / 200) * 1000 > PubnubConfig.MAX_LATENCY_MS ∧
    (apply_positions 2
        ⟨[("Leader1", "Follower1")], ["Follower1"],
          [("Follower1", PositionSmoother.init (8 / 10))], []⟩
        ⟨319 / 200, 2, [("Leader1", [(1, 2048)])]⟩).2 = [] := by
  have hfresh : ((1 : ℚ) - 19 / 20) * 1000 ≤ PubnubConfig.MAX_LATENCY_MS := by
    norm_num [PubnubConfig.MAX_LATENCY_MS]
  have hstale : ((2 : ℚ) - 319 / 200) * 1000 > PubnubConfig.MAX_LATENCY_MS := by
    norm_num [PubnubConfig.MAX_LATENCY_MS]
  refine ⟨hfresh, ?_, hstale, ?_⟩
  · rw [(apply_positions_staleness_gate 1
      ⟨[("Leader1", "Follower1")], ["Follower1"],
        [("Follower1", PositionSmoother.init (8 / 10))], []⟩
      ⟨19 / 20, 1, [("Leader1", [(1, 2048)])]⟩).2 hfresh]
    simp [process_frame, applyEntries, smoothAll, PositionSmoother.smooth,
      PositionSmoother.init, alookup, aupdate]
  · exact ((apply_positions_staleness_gate 2
      ⟨[("Leader1", "Follower1")], ["Follower1"],
        [("Follower1", PositionSmoother.init (8 / 10))], []⟩
      ⟨319 / 200, 2, [("Leader1", [(1, 2048)])]⟩).1 hstale).1

/-- C2: the first-ever sample of a channel initializes `current = target` and
returns the target unsmoothed; a later call returns
`int(current * f + target * (1 - f))` clamped to at most
`MAX_POSITION_CHANGE` away from `current` in the direction of motion; and
repeatedly feeding a constant target makes `current` approach the target
monotonically, never moving by more than `MAX_POSITION_CHANGE` per call. -/
theorem position_smoother_spec :
    (∀ (s : PositionSmoother) (m : ℕ) (t : ℤ),
        alookup m s.current_positions = none →
        s.smooth m t = (⟨s.smoothing_factor, aupdate m t s.current_positions⟩, t)) ∧
    (∀ (s : PositionSmoother) (m : ℕ) (t c : ℤ),
        alookup m s.current_positions = some c →
        s.smooth m t =
          (⟨s.smoothing_factor,
              aupdate m (clampStep c (smoothRaw s.smoothing_factor c t)) s.current_positions⟩,
            clampStep c (smoothRaw s.smoothing_factor c t))) ∧
    (∀ (t c0 : ℤ) (n : ℕ), c0 ≤ t →
        iterSmooth PubnubConfig.POSITION_SMOOTHING t c0 n ≤
            iterSmooth PubnubConfig.POSITION_SMOOTHING t c0 (n + 1) ∧
          iterSmooth PubnubConfig.POSITION_SMOOTHING t c0 (n + 1) ≤ t) ∧
    (∀ (t c0 : ℤ) (n : ℕ), t ≤ c0 →
        iterSmooth PubnubConfig.POSITION_SMOOTHING t c0 (n + 1) ≤
            iterSmooth PubnubConfig.POSITION_SMOOTHING t c0 n ∧
          t ≤ iterSmooth PubnubConfig.POSITION_SMOOTHING t c0 (n + 1)) ∧
    (∀ (t c0 : ℤ) (n : ℕ),
        |iterSmooth PubnubConfig.POSITION_SMOOTHING t c0 (n + 1) -
            iterSmooth PubnubConfig.POSITION_SMOOTHING t c0 n| ≤
          PubnubConfig.MAX_POSITION_CHANGE) := by
  have hf0 : (0 : ℚ) ≤ PubnubConfig.POSITION_SMOOTHING := by
    norm_num [PubnubConfig.POSITION_SMOOTHING]
  have hf1 : PubnubConfig.POSITION_SMOOTHING ≤ 1 := by
    norm_num [PubnubConfig.POSITION_SMOOTHING]
  refine ⟨?_, ?_, ?_, ?_, ?_⟩
  · intro s m t h
    unfold PositionSmoother.smooth
    rw [h]
  · intro s m t c h
    unfold PositionSmoother.smooth
    rw [h]
  · intro t c0 n h
    have hle := iterSmooth_le_target hf0 hf1 h n
    exact ⟨(smoothStep_btw_of_le hf0 hf1 hle).1, (smoothStep_btw_of_le hf0 hf1 hle).2⟩
  · intro t c0 n h
    have hge := iterSmooth_ge_target hf0 hf1 h n
    exact ⟨(smoothStep_btw_of_ge hf0 hf1 hge).2, (smoothStep_btw_of_ge hf0 hf1 hge).1⟩
  · intro t c0 n
    exact abs_clampStep_sub_le _ _

/-- C2 witness: on a fresh smoother the first sample for motor 1 returns the
target unchanged, and one smoothing step from `current = 0` toward target
1000 stays within the target and moves forward. -/
theorem position_smoother_spec_witness :
    (PositionSmoother.init (8 / 10)).smooth 1 500 =
      (⟨8 / 10, aupdate 1 500 []⟩, 500) ∧
    ((0 : ℤ) ≤ 1000 ∧
      iterSmooth PubnubConfig.POSITION_SMOOTHING 1000 0 0 ≤
        iterSmooth PubnubConfig.POSITION_SMOOTHING 1000 0 1 ∧
      iterSmooth PubnubConfig.POSITION_SMOOTHING 1000 0 1 ≤ 1000) := by
  refine ⟨position_smoother_spec.1 (PositionSmoother.init (8 / 10)) 1 500 rfl,
    le_refl 0 |>.trans (by norm_num), ?_, ?_⟩
  · exact (position_smoother_spec.2.2.1 1000 0 0 (by norm_num)).1
  · exact (position_smoother_spec.2.2.1 1000 0 0 (by norm_num)).2

/-- C3: switching a 2-leader/2-follower mapping `{L1: F1, L2: F2}` yields
`{L1: F2, L2: F1}` (the leaders keep their places, the followers swap), and
switching twice restores the original mapping; the same holds for the
`LeaderTeleop.switch_mapping` variant with its fixed `Leader1`/`Leader2`
keys. -/
theorem switch_mapping_involution (l1 l2 f1 f2 : String) :
    MultiArms.switch_mapping [(l1, f1), (l2, f2)] = some [(l1, f2), (l2, f1)] ∧
    MultiArms.switch_mapping [(l1, f2), (l2, f1)] = some [(l1, f1), (l2, f2)] ∧
    ([(l1, f2), (l2, f1)].map Prod.fst = [(l1, f1), (l2, f2)].map Prod.fst) ∧
    LeaderRemote.switch_mapping 2 [("Leader1", f1), ("Leader2", f2)] =
      [("Leader1", f2), ("Leader2", f1)] ∧
    LeaderRemote.switch_mapping 2
        (LeaderRemote.switch_mapping 2 [("Leader1", f1), ("Leader2", f2)]) =
      [("Leader1", f1), ("Leader2", f2)] := by
  refine ⟨rfl, rfl, rfl, ?_, ?_⟩ <;> simp [LeaderRemote.switch_mapping]

theorem shiftLeft_one_eleven : (1 <<< 11 : ℕ) = 2 ^ 11 := by
  simp [Nat.shiftLeft_eq]

theorem or_two_pow_xor_cancel {m : ℕ} (hm : m < 2 ^ 11) :
    (m ||| 2 ^ 11) ^^^ 2 ^ 11 = m := by
  apply Nat.eq_of_testBit_eq
  intro i
  rw [Nat.testBit_xor, Nat.testBit_or]
  rcases eq_or_ne (11 : ℕ) i with h | h
  · subst h
    rw [Nat.testBit_two_pow, Nat.testBit_lt_two_pow hm]
    simp
  · rw [Nat.testBit_two_pow, decide_eq_false h]
    simp

/-- C4 counterexample: the claim says the encode operation fails (raises) for
every `v` with `|v| > 2047`, so that an out-of-range magnitude is never
written.  In the code, `encode_homing_offset` is total and performs no range
check: at `v = -3000` it silently produces the register value 3000, which
sign-magnitude-decodes to -952, not -3000 — a silently corrupted write
instead of an error. -/
theorem write_homing_offsets_no_range_check :
    SetMiddle.encode_homing_offset (-3000) = 3000 ∧
    SetMiddle.decode_sign_magnitude 3000 = -952 ∧
    SetMiddle.decode_sign_magnitude 3000 ≠ -3000 ∧
    (2047 : ℤ) < |(-3000 : ℤ)| := by
  refine ⟨by decide, by decide, by decide, by decide⟩

/-- C4 amended: `write_homing_offsets` encodes a signed homing offset as
`(direction_bit << 11) | magnitude` with `direction_bit = 1` iff the value is
negative and `magnitude = abs(value)`, and decoding reverses the encoding
exactly for every in-range value `|v| <= (1 << 11) - 1`; however the encode
operation is total — it never fails — and for `|v| > 2047` the out-of-range
value is silently written (corrupted) rather than rejected. -/
theorem encode_homing_offset_spec (v : ℤ) :
    SetMiddle.encode_homing_offset v =
      (if v < 0 then (((1 <<< 11 : ℕ) ||| v.natAbs : ℕ) : ℤ) else v) ∧
    (-(2 ^ 11 - 1) ≤ v → v ≤ 2 ^ 11 - 1 →
      SetMiddle.decode_sign_magnitude (SetMiddle.encode_homing_offset v).toNat = v) := by
  constructor
  · unfold SetMiddle.encode_homing_offset
    split_ifs with h
    · rw [Nat.lor_comm]
    · rfl
  · intro h1 h2
    by_cases h : v < 0
    · have hm : v.natAbs < 2 ^ 11 := by omega
      have htb : (v.natAbs ||| 2 ^ 11).testBit 11 = true := by
        rw [Nat.testBit_or, Nat.testBit_two_pow]
        simp
      unfold SetMiddle.encode_homing_offset SetMiddle.decode_sign_magnitude
      rw [if_pos h, shiftLeft_one_eleven, Int.toNat_natCast, if_pos htb,
        or_two_pow_xor_cancel hm]
      omega
    · have hv : 0 ≤ v := not_lt.mp h
      have hlt : v.toNat < 2 ^ 11 := by omega
      unfold SetMiddle.encode_homing_offset SetMiddle.decode_sign_magnitude
      rw [if_neg h, shiftLeft_one_eleven,
        if_neg (by simp [Nat.testBit_lt_two_pow hlt])]
      omega

/-- C4 amended witness: the in-range value -1000 round-trips through the
sign-magnitude encoding. -/
theorem encode_homing_offset_spec_witness :
    -((2 : ℤ) ^ 11 - 1) ≤ -1000 ∧ (-1000 : ℤ) ≤ 2 ^ 11 - 1 ∧
    SetMiddle.decode_sign_magnitude (SetMiddle.encode_homing_offset (-1000)).toNat =
      -1000 := by
  refine ⟨by decide, by decide,
    (encode_homing_offset_spec (-1000)).2 (by decide) (by decide)⟩

/-- C5: `get_stats` of the ack-every-5th monitor reports
`packet_loss = 1 - acked / expected_acks` with `expected_acks = sent // 5`;
in particular `sent = 50, acked = 9` gives `expected_acks = 10` and
`packet_loss = 1/10`, and a fresh monitor with no sends reports 0 latency
and 0 loss with no division by zero. -/
theorem get_stats_packet_loss (nm : NetworkMonitor) :
    (nm.sent_count = 50 → nm.ack_count = 9 → nm.latencies ≠ [] →
      nm.sent_count / 5 = 10 ∧ (get_stats_arx nm).packet_loss = 1 / 10) ∧
    get_stats_arx NetworkMonitor.init = ⟨0, 0, 0, 0, 0⟩ ∧
    (nm.latencies ≠ [] → 0 < nm.sent_count / 5 →
      (get_stats_arx nm).packet_loss =
        1 - (nm.ack_count : ℚ) / ((nm.sent_count / 5 : ℕ) : ℚ)) := by
  refine ⟨?_, rfl, ?_⟩
  · intro hs ha hl
    have hdiv : nm.sent_count / 5 = 10 := by omega
    refine ⟨hdiv, ?_⟩
    unfold get_stats_arx
    rw [if_neg hl]
    simp only [hdiv, ha]
    norm_num
  · intro hl hpos
    unfold get_stats_arx
    rw [if_neg hl]
    simp only [if_pos hpos]

/-- C5 witness: a monitor state with 50 sends, 9 acks and one latency sample
reports `expected_acks = 10` and `packet_loss = 1/10`. -/
theorem get_stats_packet_loss_witness :
    ((⟨50, 9, [], [100]⟩ : NetworkMonitor).sent_count = 50 ∧
      (⟨50, 9, [], [100]⟩ : NetworkMonitor).ack_count = 9 ∧
      (⟨50, 9, [], [100]⟩ : NetworkMonitor).latencies ≠ []) ∧
    (⟨50, 9, [], [100]⟩ : NetworkMonitor).sent_count / 5 = 10 ∧
    (get_stats_arx ⟨50, 9, [], [100]⟩).packet_loss = 1 / 10 := by
  have h := (get_stats_packet_loss ⟨50, 9, [], [100]⟩).1 rfl rfl (by simp)
  exact ⟨⟨rfl, rfl, by simp⟩, h.1, h.2⟩

/-- C6: converting a raw tic to radians with the calibrated-center transform
and back with its inverse returns the original tic exactly (hence within the
claimed ±1 tic tolerance), for inverted and non-inverted channels alike. -/
theorem tic_radian_round_trip (scale : ℚ) (hs : 0 < scale) (center t : ℤ)
    (inverted : Bool) (_ht0 : 0 ≤ t) (_ht : t < 4096) :
    ArxFollower.radians_to_tic scale center inverted
        (ArxFollower.tic_to_radians scale center inverted t) = t ∧
    |ArxFollower.radians_to_tic scale center inverted
        (ArxFollower.tic_to_radians scale center inverted t) - t| ≤ 1 := by
  have hne : scale ≠ 0 := ne_of_gt hs
  have heq : ArxFollower.radians_to_tic scale center inverted
      (ArxFollower.tic_to_radians scale center inverted t) = t := by
    cases inverted
    · simp only [ArxFollower.radians_to_tic, ArxFollower.tic_to_radians,
        Bool.false_eq_true, if_false]
      rw [mul_div_cancel_right₀ _ hne]
      have h2 : ((t : ℚ) - (center : ℚ)) + (center : ℚ) = ((t : ℤ) : ℚ) := by
        ring
      rw [h2, pyint_intCast]
    · simp only [ArxFollower.radians_to_tic, ArxFollower.tic_to_radians, if_true]
      rw [mul_div_cancel_right₀ _ hne]
      have h2 : (center : ℚ) - ((center : ℚ) - (t : ℚ)) = ((t : ℤ) : ℚ) := by
        ring
      rw [h2, pyint_intCast]
  refine ⟨heq, ?_⟩
  rw [heq]
  simp

/-- C6 witness: raw tic 4095 with home tic 2048 round-trips exactly on an
inverted channel with a positive scale. -/
theorem tic_radian_round_trip_witness :
    (0 : ℚ) < 1 / 100 ∧ (0 : ℤ) ≤ 4095 ∧ (4095 : ℤ) < 4096 ∧
    ArxFollower.radians_to_tic (1 / 100) 2048 true
        (ArxFollower.tic_to_radians (1 / 100) 2048 true 4095) = 4095 := by
  refine ⟨by norm_num, by decide, by decide,
    (tic_radian_round_trip (1 / 100) (by norm_num) 2048 4095 true (by decide)
      (by decide)).1⟩

/-- C7: voltage classification resolves boundaries deterministically with
inclusive bounds — under the threshold policy a device is a leader iff its
voltage is strictly below 9.0 (so 9.0 classifies as follower), and under the
band policy it is a leader iff `4.5 <= v <= 5.5` (so 4.5 and 5.5 classify as
leader and 5.6 does not). -/
theorem voltage_classification_boundaries :
    SetMiddle.set_middle_is_leader (9 / 2) = true ∧
    SetMiddle.set_middle_is_leader (11 / 2) = true ∧
    SetMiddle.set_middle_is_leader (28 / 5) = false ∧
    MultiArms.identify_robot_by_voltage_is_leader 9 = false ∧
    (∀ v : ℚ, MultiArms.identify_robot_by_voltage_is_leader v = true ↔ v < 9) ∧
    (∀ v : ℚ, SetMiddle.set_middle_is_leader v = true ↔ 9 / 2 ≤ v ∧ v ≤ 11 / 2) := by
  refine ⟨?_, ?_, ?_, ?_, ?_, ?_⟩
  · norm_num [SetMiddle.set_middle_is_leader]
  · norm_num [SetMiddle.set_middle_is_leader]
  · norm_num [SetMiddle.set_middle_is_leader]
  · norm_num [MultiArms.identify_robot_by_voltage_is_leader]
  · intro v
    simp [MultiArms.identify_robot_by_voltage_is_leader]
  · intro v
    simp [SetMiddle.set_middle_is_leader]

/-- C9: every goal position handed to `write_positions` is clamped into the
valid register range `[0, resolution - 1] = [0, 4095]` before the
`Goal_Position` write, for every motor of the input dict, so no out-of-range
value can reach the register. -/
theorem write_positions_clamped (positions : List (ℕ × ℤ)) :
    (∀ m q, (m, q) ∈ MultiArms.write_positions positions →
      0 ≤ q ∧ q ≤ (MultiArms.resolution : ℤ) - 1) ∧
    (∀ m p, (m, p) ∈ positions →
      (m, max 0 (min ((MultiArms.resolution : ℤ) - 1) p)) ∈
        MultiArms.write_positions positions) := by
  constructor
  · intro m q hmem
    obtain ⟨⟨m', p'⟩, hp, heq⟩ := List.mem_map.mp hmem
    obtain ⟨h1, h2⟩ := Prod.mk.injEq .. ▸ heq
    subst h2
    constructor
    · exact le_max_left 0 _
    · exact max_le (by norm_num [MultiArms.resolution]) (min_le_left _ _)
  · intro m p hp
    exact List.mem_map.mpr ⟨(m, p), hp, rfl⟩

/-- C9 witness: a commanded position of -50 for motor 1 reaches the register
as 0, which is within bounds. -/
theorem write_positions_clamped_witness :
    (1, (0 : ℤ)) ∈ MultiArms.write_positions [(1, -50)] ∧
    (0 : ℤ) ≤ 0 ∧ (0 : ℤ) ≤ (MultiArms.resolution : ℤ) - 1 := by
  have hmem : (1, (0 : ℤ)) ∈ MultiArms.write_positions [(1, -50)] := by
    simp [MultiArms.write_positions, MultiArms.resolution]
  have h := (write_positions_clamped [(1, -50)]).1 1 0 hmem
  exact ⟨hmem, h.1, h.2⟩

theorem alookup_aerase_self {α β : Type} [DecidableEq α] (k : α)
    (l : List (α × β)) : alookup k (aerase k l) = none := by
  induction l with
  | nil => rfl
  | cons p l ih =>
    obtain ⟨a, b⟩ := p
    by_cases h : a = k
    · simpa [aerase, h] using ih
    · simpa [aerase, h, alookup] using ih

theorem aupdate_length_le {α β : Type} [DecidableEq α] (k : α) (v : β)
    (l : List (α × β)) : (aupdate k v l).length ≤ l.length + 1 := by
  induction l with
  | nil => simp [aupdate]
  | cons p l ih =>
    obtain ⟨a, b⟩ := p
    by_cases h : a = k
    · simp [aupdate, h]
    · simp only [aupdate, if_neg h, List.length_cons]
      omega

theorem aerase_length_le {α β : Type} [DecidableEq α] (k : α)
    (l : List (α × β)) : (aerase k l).length ≤ l.length := by
  induction l with
  | nil => simp [aerase]
  | cons p l ih =>
    obtain ⟨a, b⟩ := p
    by_cases h : a = k
    · simp only [aerase, if_pos h]
      exact ih.trans (by simp)
    · simp only [aerase, if_neg h, List.length_cons]
      omega

theorem aerase_length_lt {α β : Type} [DecidableEq α] {k : α}
    {l : List (α × β)} {v : β} (h : alookup k l = some v) :
    (aerase k l).length < l.length := by
  induction l with
  | nil => simp [alookup] at h
  | cons p l ih =>
    obtain ⟨a, b⟩ := p
    by_cases hak : a = k
    · have hle := aerase_length_le k l
      simp only [aerase, if_pos hak]
      exact lt_of_le_of_lt hle (by simp)
    · have h2 : alookup k l = some v := by simpa [alookup, hak] using h
      have hlt := ih h2
      simp only [aerase, if_neg hak, List.length_cons]
      omega

theorem stepOp_preserves_inv (nm : NetworkMonitor) (op : NetworkMonitor.Op)
    (h : nm.ack_count + nm.last_sent_time.length ≤ nm.sent_count) :
    (stepOp nm op).ack_count + (stepOp nm op).last_sent_time.length ≤
      (stepOp nm op).sent_count := by
  cases op with
  | sent seq now =>
    have hup := aupdate_length_le seq now nm.last_sent_time
    simp only [stepOp, message_sent]
    omega
  | ack seq now =>
    cases hl : alookup seq nm.last_sent_time with
    | none => simpa [stepOp, message_acknowledged, hl] using h
    | some t0 =>
      have hlt := aerase_length_lt hl
      simp only [stepOp, message_acknowledged, hl]
      omega

theorem foldl_stepOp_inv (ops : List NetworkMonitor.Op) :
    ∀ nm : NetworkMonitor,
      nm.ack_count + nm.last_sent_time.length ≤ nm.sent_count →
      (ops.foldl stepOp nm).ack_count + (ops.foldl stepOp nm).last_sent_time.length ≤
        (ops.foldl stepOp nm).sent_count := by
  induction ops with
  | nil => intro nm h; simpa using h
  | cons op ops ih => intro nm h; exact ih _ (stepOp_preserves_inv nm op h)

/-- C10: an acknowledgment is counted at most once per sent sequence —
`message_acknowledged` updates the monitor and returns the latency only when
the sequence is outstanding, removes the sequence so a duplicate ack is
ignored, returns `None` leaving the whole state unchanged for an unknown or
already-acknowledged sequence, and consequently `ack_count <= sent_count`
holds after every sequence of operations. -/
theorem network_monitor_ack_at_most_once :
    (∀ (nm : NetworkMonitor) (seq : ℕ) (now : ℚ),
        alookup seq nm.last_sent_time = none →
        nm.message_acknowledged seq now = (nm, none)) ∧
    (∀ (nm : NetworkMonitor) (seq : ℕ) (now t0 : ℚ),
        alookup seq nm.last_sent_time = some t0 →
        (nm.message_acknowledged seq now).1.ack_count = nm.ack_count + 1 ∧
        (nm.message_acknowledged seq now).1.sent_count = nm.sent_count ∧
        (nm.message_acknowledged seq now).2 = some ((now - t0) * 1000) ∧
        alookup seq (nm.message_acknowledged seq now).1.last_sent_time = none) ∧
    (∀ ops : List NetworkMonitor.Op,
        (NetworkMonitor.run ops).ack_count ≤ (NetworkMonitor.run ops).sent_count) := by
  refine ⟨?_, ?_, ?_⟩
  · intro nm seq now h
    simp [message_acknowledged, h]
  · intro nm seq now t0 h
    refine ⟨by simp [message_acknowledged, h], by simp [message_acknowledged, h],
      by simp [message_acknowledged, h], ?_⟩
    simp only [message_acknowledged, h]
    exact alookup_aerase_self seq nm.last_sent_time
  · intro ops
    have h := foldl_stepOp_inv ops NetworkMonitor.init (by simp [NetworkMonitor.init])
    unfold NetworkMonitor.run
    omega

/-- C10 witness: acknowledging a never-sent sequence on a fresh monitor
returns `None` and changes nothing, and `ack_count <= sent_count` holds on
the empty operation sequence. -/
theorem network_monitor_ack_at_most_once_witness :
    NetworkMonitor.init.message_acknowledged 7 0 = (NetworkMonitor.init, none) ∧
    (NetworkMonitor.run []).ack_count ≤ (NetworkMonitor.run []).sent_count := by
  exact ⟨network_monitor_ack_at_most_once.1 NetworkMonitor.init 7 0 rfl,
    network_monitor_ack_at_most_once.2.2 []⟩

/-- C8 (claim violated by the code): in `set_middle_position` the raw
positions are read at trace index 4, strictly *before* the first
homing-offset reset at trace index 5, whereas the claim requires the read to
happen only after the reset.  Consequently, on a motor whose actual position
is 2148 while a stale homing offset of 100 is still active, the code
computes a new offset of 0 (the stale reading 2048 minus 2048) instead of
the intended 100, and after calibration the motor reads 2148 instead of the
middle position 2048. -/
theorem set_middle_position_reads_before_reset :
    (SetMiddle.set_middle_position_trace [1, 2, 3, 4, 5, 6] 76).findIdx
        (· == SetMiddle.CalEvent.readPositions) = 4 ∧
    (SetMiddle.set_middle_position_trace [1, 2, 3, 4, 5, 6] 76).findIdx
        (fun e => match e with
          | SetMiddle.CalEvent.resetHomingOffset _ => true
          | _ => false) = 5 ∧
    (4 : ℕ) < 5 ∧
    SetMiddle.code_new_offset 2148 100 = 0 ∧
    SetMiddle.claimed_new_offset 2148 = 100 ∧
    SetMiddle.present_position 2148 (SetMiddle.code_new_offset 2148 100) = 2148 ∧
    SetMiddle.present_position 2148 (SetMiddle.claimed_new_offset 2148) = 2048 ∧
    (2148 : ℤ) ≠ 2048 := by
  refine ⟨by decide, by decide, by decide, by decide, by decide, by decide,
    by decide, by decide⟩

end ARXTeleop
